import Mathlib

/-!
Verification of the LLM code-deployment orchestrator (`src/api`).

The development shallowly embeds the orchestration core of the repository:

* `cleanCodeFence` (src/api/utils.ts) — code-fence stripping of LLM output;
* the review-verdict parsing of `getLLMReview` and `verifyDeployment`
  (src/api/orchestrator.ts);
* `callLLMWithFallback` / `generateFileContent` — primary/fallback provider
  substitution;
* the phase runner (`groupByPhase`, `execute`, `executeTask`) including the
  JavaScript `Map` insertion-order semantics;
* `getDependencyContents` / `buildPrompt` — the file-generation request;
* the `executeOrchestrator` retry loop over `MAX_ATTEMPTS = 3`.

Strings are modelled by Lean `String` (a structure over `List Char`);
JavaScript truthiness of optional string fields (`undefined` and `""` are
falsy) is modelled explicitly.  External capabilities (LLM providers, the
GitHub commit/fetch/pages service) are parameters, as the spec treats them
as black boxes.
-/

/-! ## Code-fence stripping (src/api/utils.ts, `cleanCodeFence`) -/

/-- Characters stripped by JavaScript `String.prototype.trim` (ASCII cases). -/
def jsWhitespace (c : Char) : Bool := c.isWhitespace

/-- Drop leading whitespace, as in the left half of JS `trim()`. -/
def trimLeftL (l : List Char) : List Char := l.dropWhile jsWhitespace

/-- Drop trailing whitespace, as in JS `trimEnd()`. -/
def trimRightL (l : List Char) : List Char := (l.reverse.dropWhile jsWhitespace).reverse

/-- JS `trim()`: drop whitespace at both ends. -/
def trimL (l : List Char) : List Char := trimRightL (trimLeftL l)

/-- The three-character code-fence marker. -/
def backtick3 : List Char := "```".data

/-- The last `n` characters of a list (the characters JS `endsWith` inspects). -/
def takeRightL (n : Nat) (l : List Char) : List Char := l.drop (l.length - n)

/-- Step 1 of `cleanCodeFence`: if the trimmed text starts with "```",
drop through the first newline when one exists (`indexOf('\n')` /
`slice(firstNewline + 1)`), else drop the three marker characters
(`slice(3)`). -/
def dropFenceHead (t : List Char) : List Char :=
  if t.take 3 = backtick3 then
    if '\n' ∈ t then (t.dropWhile (fun c => c ≠ '\n')).drop 1
    else t.drop 3
  else t

/-- Step 2 of `cleanCodeFence`: if the text ends with "```", drop the last
three characters (`slice(0, -3)`) and trim trailing whitespace
(`trimEnd()`). -/
def dropFenceTail (t : List Char) : List Char :=
  if takeRightL 3 t = backtick3 then trimRightL (t.take (t.length - 3)) else t

/-- List-of-characters core of `cleanCodeFence` (src/api/utils.ts lines 1–18). -/
def cleanCodeFenceL (l : List Char) : List Char :=
  dropFenceTail (dropFenceHead (trimL l))

/-- The code-fence stripper applied to LLM responses
(src/api/utils.ts, `cleanCodeFence`). -/
def cleanCodeFence (s : String) : String := String.mk (cleanCodeFenceL s.data)

/-! Helper facts: each stage of `cleanCodeFenceL` removes only characters at
the ends of its input, i.e. its output is a contiguous segment of the
input. -/

/-- A list which only loses a border: `sub` occurs contiguously inside `l`. -/
def SegmentOf (sub l : List Char) : Prop := ∃ p q, l = p ++ sub ++ q

/-! ## LLM transport model (src/api/geminiClient.ts and §4.1/§5 of the spec)

A provider call either yields a response `{text}` or fails.  The failure
constructors mirror `sendPrompt`: the `Promise.race` timeout rejection, a
transport/API error, and the "No text was generated" rejection.  The claims
treat a timeout identically to the other failures, as the code does (all are
caught by the same `catch`). -/

inductive LLMError where
  | timedOut (ms : Nat)
  | transport (msg : String)
  | noText
deriving DecidableEq

/-- The generation capability's success payload (`GenerateResponse.text`). -/
structure GenerateResponse where
  text : String
deriving DecidableEq

/-! ## JSON values and JavaScript coercions

`JSON.parse` is a JS builtin, treated as a black box: theorems quantify over
a parser `String → Except String JsValue`.  The value type covers what a
successful parse can produce. -/

inductive JsValue where
  | nullV : JsValue
  | boolV (b : Bool) : JsValue
  | numV (n : Int) : JsValue
  | strV (s : String) : JsValue
  | arrV (xs : List JsValue) : JsValue
  | objV (fields : List (String × JsValue)) : JsValue

/-- Property access `v.key` on a parsed value: defined only on objects,
`undefined` (here `none`) otherwise; first matching key wins. -/
def jsGetField (v : JsValue) (key : String) : Option JsValue :=
  match v with
  | .objV fields => (fields.find? (fun f => f.1 == key)).map (fun f => f.2)
  | _ => none

/-- JS truthiness of a JSON value (`null`, `false`, `0`, `""` are falsy). -/
def jsTruthyV : JsValue → Bool
  | .nullV => false
  | .boolV b => b
  | .numV n => n != 0
  | .strV s => s != ""
  | .arrV _ => true
  | .objV _ => true

/-- JS truthiness of a possibly-`undefined` value. -/
def jsTruthyOpt : Option JsValue → Bool
  | none => false
  | some v => jsTruthyV v

mutual
/-- JS string coercion of a JSON value, as used when a value is embedded in
a template literal (arrays render as their comma-joined elements). -/
def jsValueToString : JsValue → String
  | .nullV => "null"
  | .boolV b => if b then "true" else "false"
  | .numV n => toString n
  | .strV s => s
  | .arrV xs => jsValuesToString xs
  | .objV _ => "[object Object]"
/-- String coercion of a JS array: elements joined by commas. -/
def jsValuesToString : List JsValue → String
  | [] => ""
  | [x] => jsValueToString x
  | x :: y :: rest => jsValueToString x ++ "," ++ jsValuesToString (y :: rest)
end

/-! ## Reviewer (src/api/orchestrator.ts, `getLLMReview` / `verifyDeployment`)

`getLLMReview` is embedded as a function of the outcome of its
`callLLMWithFallback` call (the whole primary/fallback chain, `Except` on
failure) and of the `JSON.parse` builtin.  The `try`/`catch` wrapping both
is the two error branches. -/

/-- The reviewer verdict `{approved, reason}`.  TypeScript declares `reason`
as a string, but at runtime it holds whatever JSON value the model returned,
so it is kept as a `JsValue`. -/
structure ReviewDecision where
  approved : Bool
  reason : JsValue

/-- Verdict construction of `getLLMReview` (orchestrator.ts lines 252–268 /
672–689): on any failure of the LLM call or of `JSON.parse`, the conservative
verdict; otherwise `approved === true` strict comparison and
`reason || "No reason provided"`. -/
def getLLMReview (llmOutcome : Except LLMError GenerateResponse)
    (parse : String → Except String JsValue) : ReviewDecision :=
  match llmOutcome with
  | .error _ => ⟨false, .strV "LLM review process failed"⟩
  | .ok response =>
    match parse (cleanCodeFence response.text) with
    | .error _ => ⟨false, .strV "LLM review process failed"⟩
    | .ok review =>
      { approved :=
          match jsGetField review "approved" with
          | some (.boolV true) => true
          | _ => false
        reason :=
          match jsGetField review "reason" with
          | some r => if jsTruthyV r then r else .strV "No reason provided"
          | none => .strV "No reason provided" }

/-- Verification result `{success, errors, warnings, reviewReason}`
(src/api/schemas.ts `VerificationResult`); `reviewReason` keeps the raw
verdict reason. -/
structure VerificationResult where
  success : Bool
  errors : List String
  warnings : List String
  reviewReason : JsValue

/-- `verifyDeployment` (orchestrator.ts lines 182–200): wraps the review
decision into a `VerificationResult`; on rejection a single error string
interpolating the reason. -/
def verifyDeployment (reviewDecision : ReviewDecision) : VerificationResult :=
  { success := reviewDecision.approved
    errors :=
      if reviewDecision.approved then []
      else ["LLM Review Failed: " ++ jsValueToString reviewDecision.reason]
    warnings := []
    reviewReason := reviewDecision.reason }

/-! ## Plan tasks and the phase runner (src/api/orchestrator.ts lines 24–52)

`groupByPhase` reduces the implementation sequence into a JavaScript `Map`
keyed by `task.phase`.  A JS `Map` iterates its entries in key-insertion
order, so the embedding is an association list where `set` updates the first
matching key in place and appends unknown keys at the end; `execute` then
walks the entries and `executePhase` walks each group. -/

/-- One entry of `plan.implementation_sequence`. -/
structure PlanTask where
  name : String
  phase : Nat
  file_to_generate : Option String
  file_to_update : Option String
  validation_checkpoint : String
deriving DecidableEq

/-- One `phases.set`/`push` step of the reduce in `groupByPhase`:
append the task to the existing group for its phase, else append a fresh
group at the end (JS `Map` insertion order). -/
def insertTask : List (Nat × List PlanTask) → PlanTask → List (Nat × List PlanTask)
  | [], t => [(t.phase, [t])]
  | (k, g) :: rest, t =>
    if k = t.phase then (k, g ++ [t]) :: rest else (k, g) :: insertTask rest t

/-- `groupByPhase` (orchestrator.ts lines 37–44). -/
def groupByPhase (sequence : List PlanTask) : List (Nat × List PlanTask) :=
  sequence.foldl insertTask []

/-- Concatenation of the groups: the order in which `execute` /
`executePhase` (orchestrator.ts lines 25–52) reach the tasks. -/
def flattenG (gs : List (Nat × List PlanTask)) : List PlanTask :=
  gs.flatMap (fun g => g.2)

/-- The task execution order of one `execute` run. -/
def phaseRunOrder (sequence : List PlanTask) : List PlanTask :=
  flattenG (groupByPhase sequence)

/-- First-occurrence deduplication: the key order a JS `Map` ends up with. -/
def firstOccur (l : List Nat) : List Nat :=
  l.foldl (fun acc x => if x ∈ acc then acc else acc ++ [x]) []

/-- Well-formedness of a grouping: keys are distinct and every task sits in
the group of its own phase. -/
def GroupsWF (gs : List (Nat × List PlanTask)) : Prop :=
  (gs.map Prod.fst).Nodup ∧ ∀ g ∈ gs, ∀ t ∈ g.2, t.phase = g.1

/-! ## Plan, project context and JS truthiness of optional string fields -/

/-- JS truthiness of an optional string (`undefined` and `""` are falsy). -/
def truthyS : Option String → Bool
  | none => false
  | some s => s != ""

/-- JS `a || b` on optional strings. -/
def jsOrS (a b : Option String) : Option String := if truthyS a then a else b

/-- JS `Map.get` on a string-keyed map kept as an insertion-ordered
association list. -/
def mapGet (m : List (String × String)) (k : String) : Option String :=
  (m.find? (fun e => e.1 == k)).map (fun e => e.2)

/-- JS `Map.set`: overwrite the first matching key in place, else append. -/
def mapSet : List (String × String) → String → String → List (String × String)
  | [], k, v => [(k, v)]
  | e :: rest, k, v =>
    if e.1 == k then (e.1, v) :: rest else e :: mapSet rest k v

/-- JS `Array.join(sep)`. -/
def joinSep (sep : String) : List String → String
  | [] => ""
  | [x] => x
  | x :: y :: rest => x ++ sep ++ joinSep sep (y :: rest)

/-- The `contains` block of a file-manifest entry. -/
structure ContainsEntry where
  functions : Option (List String)
  constants : Option (List String)
  imports : Option (List String)
deriving DecidableEq

/-- One entry of `plan.file_manifest`. -/
structure ManifestEntry where
  path : String
  purpose : String
  depends_on : List String
  contains : Option ContainsEntry
deriving DecidableEq

/-- One entry of `plan.code_generation_instructions`.  `placeholder_data` is
an arbitrary JSON object in the plan; it is kept in its
`JSON.stringify`-rendered form, which is all the prompt builder uses. -/
structure Instruction where
  file : String
  template_strategy : String
  key_requirements : Option (List String)
  placeholder_data : Option String
  logic_pattern : Option String
  integration_points : Option (List String)
  code_patterns : Option (List String)
deriving DecidableEq

/-- The fields of `mvp.definition` used by the prompt builder. -/
structure MvpDefinition where
  name : String
  core_purpose : String
deriving DecidableEq

/-- One entry of `plan.verification_checklist`, read by the later
revision's `generateFileContent`. -/
structure VerificationCheck where
  target_file : String
  check : String
  validation_method : String
deriving DecidableEq

/-- The plan fields the orchestrator reads.  `hosting_platform` stands for
the optional chain `dependency_resolution?.hosting_compatibility?.platform`
and `execution_approach` for `execution_strategy?.approach` (`none` when any
link is missing). -/
structure Plan where
  implementation_sequence : List PlanTask
  file_manifest : List ManifestEntry
  code_generation_instructions : List Instruction
  verification_checklist : List VerificationCheck
  hosting_platform : Option String
  execution_approach : Option String

/-- The per-attempt `OrchestratorContext` (src/api/schemas.ts): project
identity, current plan, MVP definition, the `generatedFiles` map and the
attempt number. -/
structure OrchestratorContext where
  projectName : String
  owner : String
  plan : Plan
  mvpDefinition : MvpDefinition
  generatedFiles : List (String × String)
  attempt : Nat

/-! ## File Generator request (orchestrator.ts lines 108–180) -/

/-- `formatInstruction` (lines 125–147): conditional sections joined by
newlines; `?.length` and string truthiness follow JS semantics. -/
def formatInstruction : Option Instruction → String
  | none => ""
  | some instruction =>
    let parts := ["\n--- File Instructions ---",
      "Strategy: " ++ instruction.template_strategy]
    let parts := match instruction.key_requirements with
      | some reqs =>
        if reqs.isEmpty then parts
        else parts ++
          ["\nRequirements:\n" ++ joinSep "\n" (reqs.map (fun req => "- " ++ req))]
      | none => parts
    let parts := match instruction.placeholder_data with
      | some rendered => parts ++ ["\nPlaceholder Data:\n" ++ rendered]
      | none => parts
    let parts := match instruction.logic_pattern with
      | some pat => if pat == "" then parts else parts ++ ["\nLogic Pattern:\n" ++ pat]
      | none => parts
    let parts := match instruction.integration_points with
      | some pts =>
        if pts.isEmpty then parts
        else parts ++
          ["\nIntegration Points:\n" ++ joinSep "\n" (pts.map (fun p => "- " ++ p))]
      | none => parts
    joinSep "\n" parts

/-- `formatManifest` (lines 149–160). -/
def formatManifest : Option ManifestEntry → String
  | none => ""
  | some manifest =>
    match manifest.contains with
    | none => ""
    | some c =>
      let parts := ["\n--- File Manifest ---"]
      let parts := match c.functions with
        | some fns => if fns.isEmpty then parts else parts ++ ["Functions: " ++ joinSep ", " fns]
        | none => parts
      let parts := match c.constants with
        | some cs => if cs.isEmpty then parts else parts ++ ["Constants: " ++ joinSep ", " cs]
        | none => parts
      let parts := match c.imports with
        | some im => if im.isEmpty then parts else parts ++ ["Imports: " ++ joinSep ", " im]
        | none => parts
      joinSep "\n" parts

/-- `formatDependencies` (lines 162–166). -/
def formatDependencies (dependencies : List (String × String)) : String :=
  if dependencies.isEmpty then ""
  else "\n--- Dependency Files ---\n" ++
    joinSep "\n" (dependencies.map (fun dep => "\n" ++ dep.1 ++ ":\n" ++ dep.2))

/-- `getDependencyContents` (lines 168–176): each declared dependency is
looked up in `generatedFiles`, a missing entry yields `""`
(`get(dep) || ""`), and falsy (empty) contents are filtered out —
a not-yet-generated dependency is silently omitted, never an error. -/
def getDependencyContents (filePath : String) (ctx : OrchestratorContext) :
    List (String × String) :=
  match ctx.plan.file_manifest.find? (fun m => m.path == filePath) with
  | none => []
  | some manifest =>
    if manifest.depends_on.isEmpty then []
    else
      (manifest.depends_on.map
        (fun dep => (dep, (mapGet ctx.generatedFiles dep).getD ""))).filter
        (fun dep => dep.2 != "")

/-- `buildPrompt` (lines 108–123): the file-generation request, a template
literal embedding the instruction, manifest and dependency sections. -/
def buildPrompt (filePath : String) (instruction : Option Instruction)
    (ctx : OrchestratorContext) : String :=
  "Generate the complete content for: " ++ filePath ++
  "\n\nProject: " ++ ctx.mvpDefinition.name ++
  "\nPurpose: " ++ ctx.mvpDefinition.core_purpose ++
  "\n" ++ formatInstruction instruction ++
  "\n" ++ formatManifest (ctx.plan.file_manifest.find? (fun m => m.path == filePath)) ++
  "\n" ++ formatDependencies (getDependencyContents filePath ctx) ++
  "\n\n--- Output Instructions ---\nReturn ONLY the raw file content. No markdown code blocks, no explanations."

/-! Substring machinery reusing `SegmentOf`. -/

/-- JSON.stringify of a string array (escaping of exotic characters inside
the identifiers is elided). -/
def jsonStringifyStrArr (xs : List String) : String :=
  "[" ++ joinSep "," (xs.map (fun s => "\"" ++ s ++ "\"")) ++ "]"

/-- JSON.stringify of a `contains` block: fields present only when defined,
in declaration order. -/
def jsonStringifyContains (c : ContainsEntry) : String :=
  "\x7b" ++
  joinSep ","
    ((match c.functions with
      | some fns => ["\"functions\":" ++ jsonStringifyStrArr fns]
      | none => []) ++
     (match c.constants with
      | some cs => ["\"constants\":" ++ jsonStringifyStrArr cs]
      | none => []) ++
     (match c.imports with
      | some im => ["\"imports\":" ++ jsonStringifyStrArr im]
      | none => [])) ++
  "\x7d"

/-- The prompt construction of the second (later) revision's
`generateFileContent` (orchestrator.ts lines 474–508): manifest details with
only the dependency *names* (`Depends on: ...join(', ')`), implementation
phases, instruction and verification summaries, all joined after a JS
`filter(Boolean)`.  It never consults `ctx.generatedFiles`. -/
def buildPromptRev2 (filePath : String) (ctx : OrchestratorContext) : String :=
  let manifest := ctx.plan.file_manifest.find? (fun f => f.path == filePath)
  let implPhases := ctx.plan.implementation_sequence.filter
    (fun s => s.file_to_generate == some filePath || s.file_to_update == some filePath)
  let instructions := ctx.plan.code_generation_instructions.filter
    (fun i => i.file == filePath)
  let verifications := ctx.plan.verification_checklist.filter
    (fun v => v.target_file == filePath)
  let manifestDetails :=
    match manifest with
    | some m =>
      joinSep "\n"
        ["Purpose: " ++ m.purpose,
         match m.contains with
         | some c => "Contents: " ++ jsonStringifyContains c
         | none => "",
         if m.depends_on.isEmpty then ""
         else "Depends on: " ++ joinSep ", " m.depends_on]
    | none => ""
  let implDetails :=
    if implPhases.isEmpty then ""
    else joinSep "\n" (implPhases.map (fun p =>
      "Phase: " ++ toString p.phase ++ " - " ++ p.name ++
        ", Checkpoint: " ++ p.validation_checkpoint))
  let instructionDetails :=
    if instructions.isEmpty then ""
    else joinSep "\n" (instructions.map (fun i =>
      joinSep " | "
        ((["Strategy: " ++ i.template_strategy,
           match i.key_requirements with
           | some reqs => "Requirements: " ++ joinSep ", " reqs
           | none => "",
           match i.integration_points with
           | some pts => "Integration: " ++ joinSep ", " pts
           | none => "",
           match i.code_patterns with
           | some ps => "Patterns: " ++ joinSep ", " ps
           | none => "",
           match i.placeholder_data with
           | some rendered => "Placeholders: " ++ rendered
           | none => ""]).filter (fun s => s != ""))))
  let verificationDetails :=
    if verifications.isEmpty then ""
    else joinSep "\n" (verifications.map (fun v =>
      "Verify: " ++ v.check ++ " (method: " ++ v.validation_method ++ ")"))
  joinSep "\n\n"
    ((["Generate content for file: " ++ filePath,
       manifestDetails,
       implDetails,
       instructionDetails,
       verificationDetails,
       "Return only file content, no extra explanation."]).filter (fun s => s != ""))

/-- A string occurs contiguously inside another. -/
def StrContains (hay needle : String) : Prop := SegmentOf needle.data hay.data

/-! ## Primary/fallback generation calls (orchestrator.ts lines 6–22, 83–106) -/

/-- A generation config (`LLM_CONFIGS`).  Temperatures are the source's
decimal literals recorded in tenths (0.3 → 3); only identity of the config
object matters to the claims. -/
structure LLMConfig where
  temperatureTenths : Nat
  maxOutputTokens : Nat
deriving DecidableEq

/-- `LLM_CONFIGS.CODE_GEN = {temperature: 0.3, maxOutputTokens: 8192}`. -/
def LLM_CONFIG_CODE_GEN : LLMConfig := ⟨3, 8192⟩

/-- `LLM_MODELS.FLASH`. -/
def LLM_MODEL_FLASH : String := "gemini-flash-latest"

/-- `PRIMARY_CLIENT = CLIENT_MAP[config.llmProvider]`. -/
def primaryProvider (cfgProvider : String) : String := cfgProvider

/-- `FALLBACK_CLIENT = config.llmProvider === "gemini" ? aipipe : gemini`. -/
def fallbackProvider (cfgProvider : String) : String :=
  if cfgProvider == "gemini" then "aipipe" else "gemini"

/-- One `client.generate(prompt, model, config)` invocation. -/
structure LLMCall where
  provider : String
  prompt : String
  model : String
  config : LLMConfig
deriving DecidableEq

/-- `callLLMWithFallback` (lines 95–106): try the primary thunk; on any
exception run the fallback thunk once, whose own failure propagates.  The
second component records the calls actually performed, in order. -/
def callLLMWithFallback (primaryCall fallbackCall : LLMCall)
    (execCall : LLMCall → Except LLMError GenerateResponse) :
    Except LLMError GenerateResponse × List LLMCall :=
  match execCall primaryCall with
  | .ok v => (.ok v, [primaryCall])
  | .error _ => (execCall fallbackCall, [primaryCall, fallbackCall])

/-- `cleanContent` (lines 178–180): `trim()` then global removal of
six-backtick runs. -/
def cleanContent (rawContent : String) : String :=
  (String.mk (trimL rawContent.data)).replace "``````" ""

/-- `generateFileContent` (lines 83–93): build the prompt, invoke the
primary and fallback providers with the identical prompt, model and config,
and sanitize the response text. -/
def generateFileContent (filePath : String) (instruction : Option Instruction)
    (ctx : OrchestratorContext) (cfgProvider : String)
    (execCall : LLMCall → Except LLMError GenerateResponse) :
    Except LLMError String × List LLMCall :=
  let prompt := buildPrompt filePath instruction ctx
  let result := callLLMWithFallback
    ⟨primaryProvider cfgProvider, prompt, LLM_MODEL_FLASH, LLM_CONFIG_CODE_GEN⟩
    ⟨fallbackProvider cfgProvider, prompt, LLM_MODEL_FLASH, LLM_CONFIG_CODE_GEN⟩
    execCall
  (result.1.map (fun response => cleanContent response.text), result.2)

/-- The second (later) revision's `generateFileContent` (orchestrator.ts
lines 474–516): builds `buildPromptRev2`, invokes the primary and fallback
providers with the identical prompt, model and config, and strips the
response with `cleanCodeFence`. -/
def generateFileContentRev2 (filePath : String) (ctx : OrchestratorContext)
    (cfgProvider : String) (execCall : LLMCall → Except LLMError GenerateResponse) :
    Except LLMError String × List LLMCall :=
  let prompt := buildPromptRev2 filePath ctx
  let result := callLLMWithFallback
    ⟨primaryProvider cfgProvider, prompt, LLM_MODEL_FLASH, LLM_CONFIG_CODE_GEN⟩
    ⟨fallbackProvider cfgProvider, prompt, LLM_MODEL_FLASH, LLM_CONFIG_CODE_GEN⟩
    execCall
  (result.1.map (fun response => cleanCodeFence response.text), result.2)

/-! ## Task execution (orchestrator.ts lines 54–81, `executeTask`) -/

/-- Observable actions of one task execution: the skip warning, the
LLM generation calls, and the single-file commit through
`githubService.commitMultipleFiles`. -/
inductive OrchEvent where
  | warnNoFile (taskName : String)
  | llmCall (call : LLMCall)
  | commitFile (path content operation message : String)
deriving DecidableEq

/-- `executeTask` (lines 54–81): resolve the target path with
`file_to_generate || file_to_update` (JS truthiness); skip with a warning
when falsy; otherwise generate content, record it in `generatedFiles`, and
commit the single file with operation `file_to_update ? "update" : "create"`
and message `` `${task.name}: ${filePath} (attempt ${ctx.attempt})` ``.
A generation failure propagates. -/
def executeTask (task : PlanTask) (ctx : OrchestratorContext) (cfgProvider : String)
    (execCall : LLMCall → Except LLMError GenerateResponse) :
    Except LLMError OrchestratorContext × List OrchEvent :=
  match jsOrS task.file_to_generate task.file_to_update with
  | none => (.ok ctx, [.warnNoFile task.name])
  | some filePath =>
    if filePath == "" then (.ok ctx, [.warnNoFile task.name])
    else
      let instruction := ctx.plan.code_generation_instructions.find?
        (fun inst => inst.file == filePath)
      let gen := generateFileContent filePath instruction ctx cfgProvider execCall
      let llmEvents := gen.2.map (fun c => OrchEvent.llmCall c)
      match gen.1 with
      | .error e => (.error e, llmEvents)
      | .ok content =>
        (.ok { ctx with generatedFiles := mapSet ctx.generatedFiles filePath content },
          llmEvents ++
            [.commitFile filePath content
              (if truthyS task.file_to_update then "update" else "create")
              (task.name ++ ": " ++ filePath ++ " (attempt " ++ toString ctx.attempt ++ ")")])

/-! ## The orchestration loop (orchestrator.ts lines 305–386,
`executeOrchestrator`)

The loop is parameterised over the reviewer decision each attempt produces
(`review attempt plan`, abstracting the phase run, GitHub sync and LLM
review of that attempt — the spec's "Reviewer stub"), over the replanner
result (`replanFn plan feedback`, abstracting `replanWithFeedback`), and
over the deployment URL the pages capability returns.  The result records
the outcome together with how often phases ran, the replanner was called,
and the deployment capability was invoked, plus the plan current at
termination. -/

/-- `MAX_ATTEMPTS = 3` (orchestrator.ts line 9). -/
def MAX_ATTEMPTS : Nat := 3

/-- The success payload `{deploymentUrl, verification, attempts}`. -/
structure OrchSuccess where
  deploymentUrl : String
  verification : VerificationResult
  attempts : Nat

/-- Observable result of one `executeOrchestrator` run. -/
structure LoopResult where
  outcome : Except String OrchSuccess
  attemptsRun : Nat
  replanCalls : Nat
  deployCalls : Nat
  finalPlan : Plan

/-- `isStaticSite` (lines 354–356): explicit github-pages hosting marker or
a static-spa execution strategy. -/
def isStaticSite (plan : Plan) : Bool :=
  plan.hosting_platform == some "github-pages" ||
  plan.execution_approach == some "static-spa"

/-- The replan feedback `verification.reviewReason || "Unknown issue"`
(line 375), rendered to the string the replan prompt embeds. -/
def feedbackOf (verification : VerificationResult) : String :=
  if jsTruthyV verification.reviewReason then jsValueToString verification.reviewReason
  else "Unknown issue"

/-- The `while (attempt <= MAX_ATTEMPTS)` loop of `executeOrchestrator`
(lines 317–383): verify; on success optionally deploy and return; on
rejection replan and continue while `attempt < MAX_ATTEMPTS`, else throw the
error enumerating the final verification's error strings.  The unreachable
loop exit is the trailing `throw new Error("Orchestration failed")`. -/
def loopFrom (review : Nat → Plan → ReviewDecision) (replanFn : Plan → String → Plan)
    (pagesUrl : String) (plan : Plan) (attempt : Nat) : LoopResult :=
  if attempt ≤ MAX_ATTEMPTS then
    let verification := verifyDeployment (review attempt plan)
    if verification.success then
      { outcome := .ok ⟨if isStaticSite plan then pagesUrl else "", verification, attempt⟩
        attemptsRun := 1
        replanCalls := 0
        deployCalls := if isStaticSite plan then 1 else 0
        finalPlan := plan }
    else
      if _h : attempt < MAX_ATTEMPTS then
        { outcome := (loopFrom review replanFn pagesUrl
            (replanFn plan (feedbackOf verification)) (attempt + 1)).outcome
          attemptsRun := (loopFrom review replanFn pagesUrl
            (replanFn plan (feedbackOf verification)) (attempt + 1)).attemptsRun + 1
          replanCalls := (loopFrom review replanFn pagesUrl
            (replanFn plan (feedbackOf verification)) (attempt + 1)).replanCalls + 1
          deployCalls := (loopFrom review replanFn pagesUrl
            (replanFn plan (feedbackOf verification)) (attempt + 1)).deployCalls
          finalPlan := (loopFrom review replanFn pagesUrl
            (replanFn plan (feedbackOf verification)) (attempt + 1)).finalPlan }
      else
        { outcome := .error ("Deployment failed after " ++ toString MAX_ATTEMPTS ++
            " attempts: " ++ joinSep "; " verification.errors)
          attemptsRun := 1
          replanCalls := 0
          deployCalls := 0
          finalPlan := plan }
  else
    { outcome := .error "Orchestration failed"
      attemptsRun := 0
      replanCalls := 0
      deployCalls := 0
      finalPlan := plan }
termination_by MAX_ATTEMPTS + 1 - attempt
decreasing_by omega

/-- `executeOrchestrator` starts at attempt 1 with the caller's plan. -/
def executeOrchestrator (review : Nat → Plan → ReviewDecision)
    (replanFn : Plan → String → Plan) (pagesUrl : String) (initialPlan : Plan) :
    LoopResult :=
  loopFrom review replanFn pagesUrl initialPlan 1

/-- Outcome success as a Boolean. -/
def outcomeOk : Except String OrchSuccess → Bool
  | .ok _ => true
  | .error _ => false

/-! ## Theorems -/

theorem segmentOf_refl (l : List Char) : SegmentOf l l := ⟨[], [], by simp⟩

theorem segmentOf_trans {a b c : List Char} (h₁ : SegmentOf a b) (h₂ : SegmentOf b c) :
    SegmentOf a c := by
  obtain ⟨p, q, rfl⟩ := h₁
  obtain ⟨r, s, rfl⟩ := h₂
  exact ⟨r ++ p, q ++ s, by simp⟩

theorem segmentOf_mem {sub l : List Char} (h : SegmentOf sub l) :
    ∀ c ∈ sub, c ∈ l := by
  obtain ⟨p, q, rfl⟩ := h
  intro c hc
  simp [hc]

theorem segmentOf_dropWhile (p : Char → Bool) (l : List Char) :
    SegmentOf (l.dropWhile p) l :=
  ⟨l.takeWhile p, [], by simp [List.takeWhile_append_dropWhile]⟩

theorem segmentOf_drop (n : Nat) (l : List Char) : SegmentOf (l.drop n) l :=
  ⟨l.take n, [], by simp⟩

theorem segmentOf_take (n : Nat) (l : List Char) : SegmentOf (l.take n) l :=
  ⟨[], l.drop n, by simp⟩

theorem segmentOf_reverse_dropWhile (p : Char → Bool) (l : List Char) :
    SegmentOf ((l.reverse.dropWhile p).reverse) l := by
  refine ⟨[], (l.reverse.takeWhile p).reverse, ?_⟩
  have h := congrArg List.reverse (List.takeWhile_append_dropWhile (p := p) (l := l.reverse))
  simp only [List.reverse_append, List.reverse_reverse] at h
  simpa using h.symm

theorem segmentOf_trimRightL (l : List Char) : SegmentOf (trimRightL l) l :=
  segmentOf_reverse_dropWhile jsWhitespace l

theorem segmentOf_trimL (l : List Char) : SegmentOf (trimL l) l :=
  segmentOf_trans (segmentOf_trimRightL _) (segmentOf_dropWhile _ _)

theorem segmentOf_dropFenceHead (t : List Char) : SegmentOf (dropFenceHead t) t := by
  unfold dropFenceHead
  split
  · split
    · exact segmentOf_trans (segmentOf_drop _ _) (segmentOf_dropWhile _ _)
    · exact segmentOf_drop _ _
  · exact segmentOf_refl _

theorem segmentOf_dropFenceTail (t : List Char) : SegmentOf (dropFenceTail t) t := by
  unfold dropFenceTail
  split
  · exact segmentOf_trans (segmentOf_trimRightL _) (segmentOf_take _ _)
  · exact segmentOf_refl _

theorem segmentOf_cleanCodeFenceL (l : List Char) : SegmentOf (cleanCodeFenceL l) l :=
  segmentOf_trans (segmentOf_dropFenceTail _)
    (segmentOf_trans (segmentOf_dropFenceHead _) (segmentOf_trimL _))

/-- On an input that is already trimmed and carries no fence at either end,
every stage of the stripper is the identity. -/
theorem cleanCodeFenceL_eq_self {t : List Char} (htrim : trimL t = t)
    (hhead : t.take 3 ≠ backtick3) (htail : takeRightL 3 t ≠ backtick3) :
    cleanCodeFenceL t = t := by
  unfold cleanCodeFenceL dropFenceHead dropFenceTail
  rw [htrim]
  rw [if_neg hhead, if_neg htail]

/--
C4, corrected. The claim's concrete example holds: stripping
"```json\n{"a":1}\n```" yields "{"a":1}".  Only a border of the trimmed
response is ever removed: the stripped output is a contiguous segment of the
input, so backtick sequences interior to legitimate file content survive.
Stripping is idempotent on every input whose stripped output is itself
trimmed and carries no leading or trailing fence marker.  (Unconditional
idempotence is refuted by `cleanCodeFence_not_idempotent`.)
-/
theorem cleanCodeFence_spec :
    cleanCodeFence "```json\n\x7b\"a\":1\x7d\n```" = "\x7b\"a\":1\x7d"
    ∧ (∀ s : String, ∃ p q, s.data = p ++ (cleanCodeFence s).data ++ q)
    ∧ (∀ s : String, trimL s.data = s.data → s.data.take 3 ≠ backtick3 →
        takeRightL 3 s.data ≠ backtick3 → cleanCodeFence s = s) := by
  refine ⟨by decide, fun s => ?_, fun s h₁ h₂ h₃ => ?_⟩
  · obtain ⟨p, q, hpq⟩ := segmentOf_cleanCodeFenceL s.data
    exact ⟨p, q, by simpa [cleanCodeFence] using hpq⟩
  · show String.mk (cleanCodeFenceL s.data) = s
    rw [cleanCodeFenceL_eq_self h₁ h₂ h₃]

/-- Witness for `cleanCodeFence_spec`: the already-stripped fence-free string
"fn main()" is a fixed point. -/
theorem cleanCodeFence_spec_witness : cleanCodeFence "fn main()" = "fn main()" :=
  cleanCodeFence_spec.2.2 "fn main()" (by decide) (by decide) (by decide)

/--
C4, counterexample. Code-fence stripping is not idempotent: on
"```\n x" one application yields " x" (the fence removal exposes
leading whitespace), and a second application trims it further to "x".
-/
theorem cleanCodeFence_not_idempotent :
    cleanCodeFence (cleanCodeFence "```\n x") ≠ cleanCodeFence "```\n x" := by
  decide

/--
C6, confirmed. `verifyDeployment ∘ getLLMReview` never propagates a failure:
whenever the underlying generation call fails (timeout included) or the
response does not parse as JSON after code-fence stripping, the result has
`success = false` and review reason "LLM review process failed" (the code's
phrasing of "review process failed").  Totality of `getLLMReview` over all
outcomes is the embedding of "never rethrows".
-/
theorem verify_conservative_on_failure (llmOutcome : Except LLMError GenerateResponse)
    (parse : String → Except String JsValue)
    (hfail : (∃ e, llmOutcome = .error e) ∨
      (∃ r, llmOutcome = .ok r ∧ ∃ pe, parse (cleanCodeFence r.text) = .error pe)) :
    (verifyDeployment (getLLMReview llmOutcome parse)).success = false ∧
    (verifyDeployment (getLLMReview llmOutcome parse)).reviewReason =
      .strV "LLM review process failed" := by
  rcases hfail with ⟨e, rfl⟩ | ⟨r, rfl, pe, hpe⟩
  · exact ⟨rfl, rfl⟩
  · simp [getLLMReview, hpe, verifyDeployment]

/-- Witness for `verify_conservative_on_failure`: a timed-out review call is
rejected with the failure reason. -/
theorem verify_conservative_on_failure_witness :
    (verifyDeployment (getLLMReview (.error (.timedOut 120000))
      (fun _ => .error "SyntaxError"))).success = false ∧
    (verifyDeployment (getLLMReview (.error (.timedOut 120000))
      (fun _ => .error "SyntaxError"))).reviewReason =
      .strV "LLM review process failed" :=
  verify_conservative_on_failure (.error (.timedOut 120000))
    (fun _ => .error "SyntaxError") (.inl ⟨.timedOut 120000, rfl⟩)

/--
C10, confirmed. When the review response parses, the verdict is approved
exactly when the parsed object's `approved` field is strictly the boolean
`true` (a string "true", a number, an object, an absent field, or a
non-object parse all reject), and the verdict's reason is never empty: a
missing or falsy model-supplied reason is replaced by "No reason provided",
and a kept string reason is nonempty.
-/
theorem review_strict_approval (llmOutcome : Except LLMError GenerateResponse)
    (parse : String → Except String JsValue) (r : GenerateResponse) (review : JsValue)
    (hok : llmOutcome = .ok r) (hparse : parse (cleanCodeFence r.text) = .ok review) :
    ((getLLMReview llmOutcome parse).approved = true ↔
      jsGetField review "approved" = some (.boolV true)) ∧
    (jsGetField review "reason" = none →
      (getLLMReview llmOutcome parse).reason = .strV "No reason provided") ∧
    (∀ s, (getLLMReview llmOutcome parse).reason = .strV s → s ≠ "") := by
  subst hok
  simp only [getLLMReview, hparse]
  refine ⟨?_, ?_, ?_⟩
  · constructor
    · intro h
      revert h
      match hf : jsGetField review "approved" with
      | some (.boolV true) => intro _; rfl
      | some (.boolV false) => intro h; cases h
      | some .nullV | some (.numV _) | some (.strV _) | some (.arrV _) | some (.objV _) =>
          intro h; cases h
      | none => intro h; cases h
    · intro h
      simp only [h]
  · intro h
    simp only [h]
  · intro s hs
    revert hs
    match hf : jsGetField review "reason" with
    | none => intro hs; cases hs; decide
    | some r' =>
      simp only []
      by_cases htr : jsTruthyV r' = true
      · simp only [htr, if_true]
        intro hs
        subst hs
        simpa [jsTruthyV] using htr
      · simp only [Bool.not_eq_true] at htr
        simp only [htr, Bool.false_eq_true, if_false]
        intro hs; cases hs; decide

/-- Witness for `review_strict_approval`: a parse returning
`{approved: "true"}` (string, not boolean) is rejected and gets the default
reason. -/
theorem review_strict_approval_witness :
    ((getLLMReview (.ok ⟨"resp"⟩)
        (fun _ => .ok (.objV [("approved", .strV "true")]))).approved = true ↔
      jsGetField (.objV [("approved", .strV "true")]) "approved" =
        some (.boolV true)) ∧
    (jsGetField (JsValue.objV [("approved", .strV "true")]) "reason" = none →
      (getLLMReview (.ok ⟨"resp"⟩)
        (fun _ => .ok (.objV [("approved", .strV "true")]))).reason =
        .strV "No reason provided") ∧
    (∀ s, (getLLMReview (.ok ⟨"resp"⟩)
        (fun _ => .ok (.objV [("approved", .strV "true")]))).reason = .strV s →
      s ≠ "") :=
  review_strict_approval (.ok ⟨"resp"⟩)
    (fun _ => .ok (.objV [("approved", .strV "true")]))
    ⟨"resp"⟩ (.objV [("approved", .strV "true")]) rfl rfl

theorem flattenG_cons (g : Nat × List PlanTask) (rest : List (Nat × List PlanTask)) :
    flattenG (g :: rest) = g.2 ++ flattenG rest := rfl

theorem insertTask_cons_pos (grp : List PlanTask) (rest : List (Nat × List PlanTask))
    (t : PlanTask) :
    insertTask ((t.phase, grp) :: rest) t = (t.phase, grp ++ [t]) :: rest := by
  simp [insertTask]

theorem insertTask_cons_neg {k : Nat} (grp : List PlanTask) (rest : List (Nat × List PlanTask))
    {t : PlanTask} (hk : k ≠ t.phase) :
    insertTask ((k, grp) :: rest) t = (k, grp) :: insertTask rest t := by
  simp [insertTask, hk]

theorem keys_insertTask (gs : List (Nat × List PlanTask)) (t : PlanTask) :
    (insertTask gs t).map Prod.fst =
      if t.phase ∈ gs.map Prod.fst then gs.map Prod.fst
      else gs.map Prod.fst ++ [t.phase] := by
  induction gs with
  | nil => simp [insertTask]
  | cons g rest ih =>
    obtain ⟨k, grp⟩ := g
    by_cases hk : k = t.phase
    · subst hk
      rw [insertTask_cons_pos]
      simp
    · rw [insertTask_cons_neg grp rest hk]
      by_cases hmem : t.phase ∈ rest.map Prod.fst
      · simp [ih, hmem, Ne.symm hk]
      · simp [ih, hmem, Ne.symm hk]

theorem hom_insertTask {gs : List (Nat × List PlanTask)} (t : PlanTask)
    (hhom : ∀ g ∈ gs, ∀ x ∈ g.2, x.phase = g.1) :
    ∀ g ∈ insertTask gs t, ∀ x ∈ g.2, x.phase = g.1 := by
  induction gs with
  | nil =>
    intro g hg x hx
    simp only [insertTask, List.mem_singleton] at hg
    subst hg
    simp only [List.mem_singleton] at hx
    subst hx
    rfl
  | cons g₀ rest ih =>
    obtain ⟨k, grp⟩ := g₀
    intro g hg x hx
    by_cases hk : k = t.phase
    · subst hk
      rw [insertTask_cons_pos] at hg
      rcases List.mem_cons.mp hg with hg | hg
      · subst hg
        rcases List.mem_append.mp hx with hx | hx
        · exact hhom (t.phase, grp) (by simp) x hx
        · simp only [List.mem_singleton] at hx
          subst hx
          rfl
      · exact hhom g (List.mem_cons_of_mem _ hg) x hx
    · rw [insertTask_cons_neg grp rest hk] at hg
      rcases List.mem_cons.mp hg with hg | hg
      · subst hg
        exact hhom (k, grp) (by simp) x hx
      · exact ih (fun g' hg' => hhom g' (List.mem_cons_of_mem _ hg')) g hg x hx

theorem groupsWF_insertTask {gs : List (Nat × List PlanTask)} (t : PlanTask)
    (h : GroupsWF gs) : GroupsWF (insertTask gs t) := by
  obtain ⟨hnd, hhom⟩ := h
  refine ⟨?_, hom_insertTask t hhom⟩
  rw [keys_insertTask]
  by_cases hm : t.phase ∈ gs.map Prod.fst
  · rw [if_pos hm]
    exact hnd
  · rw [if_neg hm, List.nodup_append]
    refine ⟨hnd, List.nodup_singleton _, ?_⟩
    intro a ha hb
    simp only [List.mem_singleton] at hb
    subst hb
    exact hm ha

theorem phase_mem_keys_of_mem_flattenG {gs : List (Nat × List PlanTask)} {x : PlanTask}
    (hhom : ∀ g ∈ gs, ∀ t ∈ g.2, t.phase = g.1) (hx : x ∈ flattenG gs) :
    x.phase ∈ gs.map Prod.fst := by
  simp only [flattenG, List.mem_flatMap] at hx
  obtain ⟨g, hg, hxg⟩ := hx
  have := hhom g hg x hxg
  simp only [List.mem_map]
  exact ⟨g, hg, this.symm⟩

theorem filter_flattenG_insertTask {gs : List (Nat × List PlanTask)} (t : PlanTask) (ph : Nat)
    (h : GroupsWF gs) :
    (flattenG (insertTask gs t)).filter (fun x => x.phase == ph) =
      (flattenG gs).filter (fun x => x.phase == ph) ++
        if t.phase == ph then [t] else [] := by
  obtain ⟨hnd, hhom⟩ := h
  induction gs with
  | nil =>
    by_cases hph : t.phase = ph <;> simp [insertTask, flattenG, hph]
  | cons g₀ rest ih =>
    obtain ⟨k, grp⟩ := g₀
    by_cases hk : k = t.phase
    · subst hk
      rw [insertTask_cons_pos, flattenG_cons, flattenG_cons, List.filter_append,
        List.filter_append, List.filter_append]
      by_cases hph : t.phase = ph
      · have hknotin : t.phase ∉ rest.map Prod.fst := by
          have h1 : (t.phase :: rest.map Prod.fst).Nodup := by
            rw [List.map_cons] at hnd
            exact hnd
          exact (List.nodup_cons.mp h1).1
        have hrest : (flattenG rest).filter (fun x => x.phase == ph) = [] := by
          rw [List.filter_eq_nil_iff]
          intro x hx
          have hxk := phase_mem_keys_of_mem_flattenG
            (fun g hg => hhom g (List.mem_cons_of_mem _ hg)) hx
          simp only [beq_iff_eq]
          intro hcontra
          rw [hcontra, ← hph] at hxk
          exact hknotin hxk
        have hgrp : grp.filter (fun x => x.phase == ph) = grp := by
          rw [List.filter_eq_self]
          intro x hx
          have := hhom (t.phase, grp) (by simp) x hx
          simp [this, hph]
        simp [hrest, hgrp, hph]
      · simp [hph]
    · rw [insertTask_cons_neg grp rest hk, flattenG_cons, flattenG_cons,
        List.filter_append, List.filter_append]
      have hnd' : (rest.map Prod.fst).Nodup := by
        rw [List.map_cons] at hnd
        exact (List.nodup_cons.mp hnd).2
      rw [ih hnd' (fun g hg => hhom g (List.mem_cons_of_mem _ hg)), List.append_assoc]

theorem filter_flattenG_foldl (seq : List PlanTask) (ph : Nat) :
    ∀ gs : List (Nat × List PlanTask), GroupsWF gs →
      (flattenG (seq.foldl insertTask gs)).filter (fun x => x.phase == ph) =
        (flattenG gs).filter (fun x => x.phase == ph) ++
          seq.filter (fun x => x.phase == ph) := by
  induction seq with
  | nil => intro gs _; simp
  | cons t rest ih =>
    intro gs hwf
    simp only [List.foldl_cons]
    rw [ih (insertTask gs t) (groupsWF_insertTask t hwf),
      filter_flattenG_insertTask t ph hwf, List.filter_cons]
    by_cases hph : t.phase = ph
    · simp [hph, List.append_assoc]
    · simp [hph]

theorem flattenG_insertTask_of_sorted {gs : List (Nat × List PlanTask)} (t : PlanTask)
    (hpw : (gs.map Prod.fst).Pairwise (· < ·))
    (hb : ∀ k ∈ gs.map Prod.fst, k ≤ t.phase) :
    flattenG (insertTask gs t) = flattenG gs ++ [t] := by
  induction gs with
  | nil => simp [insertTask, flattenG]
  | cons g₀ rest ih =>
    obtain ⟨k, grp⟩ := g₀
    rw [List.map_cons] at hpw hb
    by_cases hk : k = t.phase
    · subst hk
      -- all later keys are both > t.phase and ≤ t.phase, so there are none
      have hrest : rest = [] := by
        cases rest with
        | nil => rfl
        | cons g₁ r =>
          exfalso
          have h₁ : t.phase < g₁.1 :=
            (List.pairwise_cons.mp hpw).1 g₁.1 (by simp)
          have h₂ : g₁.1 ≤ t.phase := hb g₁.1 (by simp)
          omega
      subst hrest
      rw [insertTask_cons_pos, flattenG_cons, flattenG_cons]
      simp [flattenG]
    · rw [insertTask_cons_neg grp rest hk, flattenG_cons, flattenG_cons]
      rw [ih (List.pairwise_cons.mp hpw).2
        (fun k' hk' => hb k' (List.mem_cons_of_mem _ hk')), List.append_assoc]

theorem flattenG_foldl_of_sorted (seq : List PlanTask) :
    ∀ gs : List (Nat × List PlanTask),
      (gs.map Prod.fst).Pairwise (· < ·) →
      (∀ k ∈ gs.map Prod.fst, ∀ q ∈ seq.map PlanTask.phase, k ≤ q) →
      (seq.map PlanTask.phase).Pairwise (· ≤ ·) →
      flattenG (seq.foldl insertTask gs) = flattenG gs ++ seq := by
  induction seq with
  | nil => intro gs _ _ _; simp
  | cons t rest ih =>
    intro gs hpw hb hs
    rw [List.map_cons] at hs
    obtain ⟨hsh, hst⟩ := List.pairwise_cons.mp hs
    simp only [List.foldl_cons]
    have hbt : ∀ k ∈ gs.map Prod.fst, k ≤ t.phase :=
      fun k hk => hb k hk t.phase (by rw [List.map_cons]; exact List.mem_cons_self _ _)
    have hkeys := keys_insertTask gs t
    have hpw' : ((insertTask gs t).map Prod.fst).Pairwise (· < ·) := by
      rw [hkeys]
      by_cases hm : t.phase ∈ gs.map Prod.fst
      · rw [if_pos hm]
        exact hpw
      · rw [if_neg hm, List.pairwise_append]
        refine ⟨hpw, List.pairwise_singleton _ _, ?_⟩
        intro a ha b hb'
        simp only [List.mem_singleton] at hb'
        subst hb'
        have hle := hbt a ha
        have hne : a ≠ t.phase := fun he => hm (he ▸ ha)
        omega
    have hb' : ∀ k ∈ (insertTask gs t).map Prod.fst,
        ∀ q ∈ rest.map PlanTask.phase, k ≤ q := by
      intro k hk q hq
      rw [hkeys] at hk
      have hkcase : k ∈ gs.map Prod.fst ∨ k = t.phase := by
        by_cases hm : t.phase ∈ gs.map Prod.fst
        · rw [if_pos hm] at hk
          exact Or.inl hk
        · rw [if_neg hm] at hk
          rcases List.mem_append.mp hk with hk | hk
          · exact Or.inl hk
          · exact Or.inr (by simpa using hk)
      rcases hkcase with hk' | hk'
      · exact hb k hk' q (by rw [List.map_cons]; exact List.mem_cons_of_mem _ hq)
      · subst hk'
        exact hsh q hq
    rw [ih (insertTask gs t) hpw' hb' hst,
      flattenG_insertTask_of_sorted t hpw hbt, List.append_assoc]
    rfl

/--
C3, counterexample. The phase runner does not process phase groups in
ascending numeric order when the implementation sequence lists them out of
order: a JS `Map` iterates in key-insertion order, so for a sequence with a
phase-2 task followed by a phase-1 task the phase-2 task executes first.
-/
theorem phaseRunner_not_ascending :
    ¬ ((phaseRunOrder
        [⟨"Core logic", 2, some "/b.js", none, ""⟩,
         ⟨"Setup", 1, some "/a.js", none, ""⟩]).map PlanTask.phase).Pairwise (· ≤ ·) := by
  intro h
  have he : (phaseRunOrder
      [⟨"Core logic", 2, some "/b.js", none, ""⟩,
       ⟨"Setup", 1, some "/a.js", none, ""⟩]).map PlanTask.phase = [2, 1] := by decide
  rw [he] at h
  have := (List.pairwise_cons.mp h).1 1 (by simp)
  omega

/--
C3, amended. The phase runner groups tasks by declared phase number and
processes the groups in key-insertion order of the JS `Map`, i.e. in order
of first appearance of each phase number in the implementation sequence,
executing tasks within a phase sequentially in manifest order.  Hence:
(1) for every phase number, the tasks of that phase execute exactly in
manifest (sequence) order; (2) the group keys are the phase numbers in
first-appearance order; and (3) whenever the sequence's phase numbers are
already non-decreasing, the overall execution order is exactly the manifest
order, so phases are then processed in ascending numeric order.
-/
theorem phaseRunner_order :
    (∀ seq ph, (phaseRunOrder seq).filter (fun t => t.phase == ph) =
        seq.filter (fun t => t.phase == ph))
    ∧ (∀ seq, (groupByPhase seq).map Prod.fst = firstOccur (seq.map PlanTask.phase))
    ∧ (∀ seq, (seq.map PlanTask.phase).Pairwise (· ≤ ·) → phaseRunOrder seq = seq) := by
  refine ⟨fun seq ph => ?_, fun seq => ?_, fun seq hs => ?_⟩
  · have h := filter_flattenG_foldl seq ph [] ⟨by simp, by simp⟩
    simpa [phaseRunOrder, groupByPhase, flattenG] using h
  · show (seq.foldl insertTask []).map Prod.fst = firstOccur (seq.map PlanTask.phase)
    rw [firstOccur]
    have : ∀ gs : List (Nat × List PlanTask),
        (seq.foldl insertTask gs).map Prod.fst =
          (seq.map PlanTask.phase).foldl
            (fun acc x => if x ∈ acc then acc else acc ++ [x]) (gs.map Prod.fst) := by
      induction seq with
      | nil => intro gs; simp
      | cons t rest ih =>
        intro gs
        simp only [List.foldl_cons, List.map_cons]
        rw [ih (insertTask gs t), keys_insertTask]
      -- both sides now fold `rest` over the same start
    simpa using this []
  · have h := flattenG_foldl_of_sorted seq [] (by simp) (by simp) hs
    simpa [phaseRunOrder, groupByPhase, flattenG] using h

/-- Witness for `phaseRunner_order`: a two-phase plan listed in ascending
phase order executes exactly in manifest order. -/
theorem phaseRunner_order_witness :
    phaseRunOrder
        [⟨"Setup", 1, some "/a.js", none, ""⟩, ⟨"Core logic", 2, some "/b.js", none, ""⟩] =
      [⟨"Setup", 1, some "/a.js", none, ""⟩, ⟨"Core logic", 2, some "/b.js", none, ""⟩] :=
  phaseRunner_order.2.2
    [⟨"Setup", 1, some "/a.js", none, ""⟩, ⟨"Core logic", 2, some "/b.js", none, ""⟩]
    (by decide)

theorem segmentOf_append_of_left {a b : List Char} (c : List Char)
    (h : SegmentOf a b) : SegmentOf a (b ++ c) := by
  obtain ⟨p, q, rfl⟩ := h
  exact ⟨p, q ++ c, by simp⟩

theorem segmentOf_append_of_right {a c : List Char} (b : List Char)
    (h : SegmentOf a c) : SegmentOf a (b ++ c) := by
  obtain ⟨p, q, rfl⟩ := h
  exact ⟨b ++ p, q, by simp⟩

theorem strContains_append_left {s needle : String} (t : String)
    (h : StrContains s needle) : StrContains (s ++ t) needle := by
  unfold StrContains
  rw [String.data_append]
  exact segmentOf_append_of_left t.data h

theorem strContains_append_right {t needle : String} (s : String)
    (h : StrContains t needle) : StrContains (s ++ t) needle := by
  unfold StrContains
  rw [String.data_append]
  exact segmentOf_append_of_right s.data h

theorem strContains_refl (s : String) : StrContains s s := segmentOf_refl s.data

/-- A member of a joined list occurs in the joined string. -/
theorem strContains_joinSep {α : Type} (f : α → String) (sep : String) :
    ∀ (l : List α) (a : α), a ∈ l → StrContains (joinSep sep (l.map f)) (f a) := by
  intro l
  induction l with
  | nil => intro a ha; cases ha
  | cons x rest ih =>
    intro a ha
    cases rest with
    | nil =>
      simp only [List.mem_singleton] at ha
      subst ha
      exact strContains_refl (f a)
    | cons y r =>
      rcases List.mem_cons.mp ha with ha | ha
      · subst ha
        show StrContains (f a ++ sep ++ joinSep sep ((y :: r).map f)) (f a)
        exact strContains_append_left _ (strContains_append_left _ (strContains_refl _))
      · show StrContains (f x ++ sep ++ joinSep sep ((y :: r).map f)) (f a)
        exact strContains_append_right _ (ih a ha)

theorem append_ne_left {s : String} (t : String) (h : s ≠ "") : s ++ t ≠ "" := by
  intro habs
  apply h
  have hd := congrArg String.data habs
  rw [String.data_append] at hd
  exact String.ext (List.append_eq_nil.mp hd).1

theorem strContains_joinSep_self (sep : String) (l : List String) (a : String)
    (ha : a ∈ l) : StrContains (joinSep sep l) a := by
  have h := strContains_joinSep (fun s => s) sep l a ha
  simpa using h

/--
C5, counterexample. The later revision's `generateFileContent` (the one its
own `executeTask` invokes) builds its request with `buildPromptRev2`, which
embeds only dependency names: for a task on "/b.js" whose manifest declares
"/a.js" and whose generated content "ZZZ" is present and non-empty in
`generatedFiles`, the request does not contain that content.
-/
theorem generateFileContentRev2_omits_content :
    "/a.js" ∈ (ManifestEntry.mk "/b.js" "logic" ["/a.js"] none).depends_on
    ∧ mapGet [("/a.js", "ZZZ")] "/a.js" = some "ZZZ"
    ∧ ¬ StrContains (buildPromptRev2 "/b.js"
        ⟨"proj", "owner", ⟨[], [⟨"/b.js", "logic", ["/a.js"], none⟩], [], [], none, none⟩,
          ⟨"app", "demo"⟩, [("/a.js", "ZZZ")], 1⟩) "ZZZ" := by
  refine ⟨by decide, rfl, ?_⟩
  intro h
  have hz := segmentOf_mem h 'Z' (by decide)
  revert hz
  decide

/--
C5, corrected. The request the later revision's `generateFileContent` builds
includes each file *name* listed in the task's manifest `depends_on` entry,
but is independent of the `GeneratedFileSet` — previously generated
dependency contents are never embedded (so an ungenerated declared
dependency never causes an error, and a generated one contributes nothing
beyond its name).
-/
theorem dependency_names_only_in_request (ctx : OrchestratorContext) (filePath : String)
    (manifest : ManifestEntry)
    (hm : ctx.plan.file_manifest.find? (fun f => f.path == filePath) = some manifest) :
    (∀ dep, dep ∈ manifest.depends_on → StrContains (buildPromptRev2 filePath ctx) dep)
    ∧ (∀ files', buildPromptRev2 filePath { ctx with generatedFiles := files' } =
        buildPromptRev2 filePath ctx) := by
  constructor
  · intro dep hdep
    have hne : ¬ (manifest.depends_on.isEmpty = true) := by
      intro habs
      rw [List.isEmpty_iff] at habs
      rw [habs] at hdep
      cases hdep
    simp only [buildPromptRev2, hm]
    rw [if_neg hne]
    have hdj : StrContains (joinSep ", " manifest.depends_on) dep :=
      strContains_joinSep_self ", " _ dep hdep
    have h3 : StrContains (joinSep "\n"
        ["Purpose: " ++ manifest.purpose,
         (match manifest.contains with
          | some c => "Contents: " ++ jsonStringifyContains c
          | none => ""),
         "Depends on: " ++ joinSep ", " manifest.depends_on]) dep :=
      strContains_append_right _ (strContains_append_right _
        (strContains_append_right _ hdj))
    have h0 : ("Purpose: " ++ manifest.purpose) ≠ "" :=
      append_ne_left _ (by decide)
    have hmdne : (joinSep "\n"
        ["Purpose: " ++ manifest.purpose,
         (match manifest.contains with
          | some c => "Contents: " ++ jsonStringifyContains c
          | none => ""),
         "Depends on: " ++ joinSep ", " manifest.depends_on]) ≠ "" :=
      append_ne_left _ (append_ne_left _ h0)
    refine segmentOf_trans h3 (strContains_joinSep_self "\n\n" _ _ ?_)
    rw [List.mem_filter]
    exact ⟨List.mem_cons_of_mem _ (List.mem_cons_self _ _), by simpa using hmdne⟩
  · intro files'
    rfl

/-- Witness for `dependency_names_only_in_request`: the dependency name
"/a.js" appears in the request, and clearing `generatedFiles` leaves the
request unchanged. -/
theorem dependency_names_only_in_request_witness :
    StrContains (buildPromptRev2 "/b.js"
      ⟨"proj", "owner", ⟨[], [⟨"/b.js", "logic", ["/a.js"], none⟩], [], [], none, none⟩,
        ⟨"app", "demo"⟩, [("/a.js", "ZZZ")], 1⟩) "/a.js"
    ∧ buildPromptRev2 "/b.js"
      ⟨"proj", "owner", ⟨[], [⟨"/b.js", "logic", ["/a.js"], none⟩], [], [], none, none⟩,
        ⟨"app", "demo"⟩, [], 1⟩ =
      buildPromptRev2 "/b.js"
      ⟨"proj", "owner", ⟨[], [⟨"/b.js", "logic", ["/a.js"], none⟩], [], [], none, none⟩,
        ⟨"app", "demo"⟩, [("/a.js", "ZZZ")], 1⟩ :=
  ⟨(dependency_names_only_in_request
      ⟨"proj", "owner", ⟨[], [⟨"/b.js", "logic", ["/a.js"], none⟩], [], [], none, none⟩,
        ⟨"app", "demo"⟩, [("/a.js", "ZZZ")], 1⟩
      "/b.js" ⟨"/b.js", "logic", ["/a.js"], none⟩ rfl).1 "/a.js" (by decide),
   (dependency_names_only_in_request
      ⟨"proj", "owner", ⟨[], [⟨"/b.js", "logic", ["/a.js"], none⟩], [], [], none, none⟩,
        ⟨"app", "demo"⟩, [("/a.js", "ZZZ")], 1⟩
      "/b.js" ⟨"/b.js", "logic", ["/a.js"], none⟩ rfl).2 []⟩

/--
The earlier revision's file-generation request (`buildPrompt`, retained
verbatim but left uninvoked by the later revision's generator) includes
the previously generated content of every file in the task's manifest
`depends_on` list that is present (non-empty) in `generatedFiles`, and a
declared dependency without generated content is silently omitted from
`getDependencyContents` — the lookup substitutes `""` and the filter drops
it, so no error arises.
-/
theorem dependency_contents_in_request (ctx : OrchestratorContext) (filePath : String)
    (instruction : Option Instruction) (manifest : ManifestEntry)
    (hm : ctx.plan.file_manifest.find? (fun m => m.path == filePath) = some manifest) :
    (∀ dep content, dep ∈ manifest.depends_on →
      mapGet ctx.generatedFiles dep = some content → content ≠ "" →
      (dep, content) ∈ getDependencyContents filePath ctx ∧
        StrContains (buildPrompt filePath instruction ctx) content)
    ∧ (∀ dep, dep ∈ manifest.depends_on → mapGet ctx.generatedFiles dep = none →
        ∀ content, (dep, content) ∉ getDependencyContents filePath ctx) := by
  constructor
  · intro dep content hdep hlook hne
    have hmem : (dep, content) ∈ getDependencyContents filePath ctx := by
      simp only [getDependencyContents, hm]
      have hnonempty : ¬ manifest.depends_on.isEmpty := by
        intro habs
        rw [List.isEmpty_iff] at habs
        rw [habs] at hdep
        cases hdep
      rw [if_neg hnonempty]
      rw [List.mem_filter]
      constructor
      · rw [List.mem_map]
        exact ⟨dep, hdep, by rw [hlook]; rfl⟩
      · simpa using hne
    refine ⟨hmem, ?_⟩
    -- the prompt embeds formatDependencies of the dependency list
    unfold buildPrompt
    apply strContains_append_left
    apply strContains_append_right
    -- now inside formatDependencies (getDependencyContents filePath ctx)
    have hdeps_ne : ¬ (getDependencyContents filePath ctx).isEmpty := by
      intro habs
      rw [List.isEmpty_iff] at habs
      rw [habs] at hmem
      cases hmem
    unfold formatDependencies
    rw [if_neg hdeps_ne]
    apply strContains_append_right
    have h := strContains_joinSep (fun dep => "\n" ++ dep.1 ++ ":\n" ++ dep.2) "\n"
      (getDependencyContents filePath ctx) (dep, content) hmem
    -- the element's text ends with the content itself
    refine segmentOf_trans ?_ h
    show SegmentOf content.data ("\n" ++ dep ++ ":\n" ++ content).data
    rw [String.data_append]
    exact segmentOf_append_of_right _ (segmentOf_refl _)
  · intro dep hdep hlook content hmem
    simp only [getDependencyContents, hm] at hmem
    by_cases hempty : manifest.depends_on.isEmpty
    · rw [if_pos hempty] at hmem
      cases hmem
    · rw [if_neg hempty] at hmem
      rw [List.mem_filter, List.mem_map] at hmem
      obtain ⟨⟨d, _, hd⟩, hfilter⟩ := hmem
      have hdep_eq : d = dep := congrArg Prod.fst hd
      subst hdep_eq
      have hcontent : content = "" := by
        have := congrArg Prod.snd hd
        simp only at this
        rw [hlook] at this
        exact this.symm
      rw [hcontent] at hfilter
      simp at hfilter

theorem fallbackProvider_ne (cfgProvider : String) :
    fallbackProvider cfgProvider ≠ primaryProvider cfgProvider := by
  unfold fallbackProvider primaryProvider
  by_cases h : cfgProvider == "gemini"
  · rw [if_pos h]
    intro habs
    have h' := h
    rw [← habs] at h'
    exact absurd h' (by decide)
  · rw [if_neg h]
    intro habs
    exact h (by rw [← habs]; decide)

/--
C7, confirmed. Every generation call goes to the primary provider first; the
fallback provider is invoked (exactly once) if and only if the primary call
fails — timeouts being one `LLMError` like any transport failure — and with
identical prompt, model and config; a fallback failure propagates as the
task's error; the call list never contains more than one fallback
invocation.
-/
theorem llm_fallback_policy (filePath : String) (instruction : Option Instruction)
    (ctx : OrchestratorContext) (cfgProvider : String)
    (execCall : LLMCall → Except LLMError GenerateResponse)
    (primaryCall fallbackCall : LLMCall)
    (hp : primaryCall = ⟨primaryProvider cfgProvider,
      buildPrompt filePath instruction ctx, LLM_MODEL_FLASH, LLM_CONFIG_CODE_GEN⟩)
    (hf : fallbackCall = ⟨fallbackProvider cfgProvider,
      buildPrompt filePath instruction ctx, LLM_MODEL_FLASH, LLM_CONFIG_CODE_GEN⟩) :
    ((generateFileContent filePath instruction ctx cfgProvider execCall).2.head? =
      some primaryCall)
    ∧ (∀ resp, execCall primaryCall = .ok resp →
        (generateFileContent filePath instruction ctx cfgProvider execCall).2 =
          [primaryCall] ∧
        (generateFileContent filePath instruction ctx cfgProvider execCall).1 =
          .ok (cleanContent resp.text))
    ∧ (∀ e, execCall primaryCall = .error e →
        (generateFileContent filePath instruction ctx cfgProvider execCall).2 =
          [primaryCall, fallbackCall]
        ∧ fallbackCall.prompt = primaryCall.prompt
        ∧ fallbackCall.model = primaryCall.model
        ∧ fallbackCall.config = primaryCall.config
        ∧ (∀ e₂, execCall fallbackCall = .error e₂ →
            (generateFileContent filePath instruction ctx cfgProvider execCall).1 =
              .error e₂)
        ∧ (∀ resp, execCall fallbackCall = .ok resp →
            (generateFileContent filePath instruction ctx cfgProvider execCall).1 =
              .ok (cleanContent resp.text)))
    ∧ ((generateFileContent filePath instruction ctx cfgProvider execCall).2.countP
        (fun c => c.provider == fallbackProvider cfgProvider) ≤ 1) := by
  subst hp
  subst hf
  have hne : (primaryProvider cfgProvider == fallbackProvider cfgProvider) = false := by
    rw [beq_eq_false_iff_ne]
    exact fun h => fallbackProvider_ne cfgProvider h.symm
  cases hexec : execCall ⟨primaryProvider cfgProvider,
      buildPrompt filePath instruction ctx, LLM_MODEL_FLASH, LLM_CONFIG_CODE_GEN⟩ with
  | ok v =>
    refine ⟨?_, fun resp hresp => ?_, fun e he => ?_, ?_⟩
    · simp [generateFileContent, callLLMWithFallback, hexec]
    · cases hresp
      exact ⟨by simp [generateFileContent, callLLMWithFallback, hexec],
        by simp [generateFileContent, callLLMWithFallback, hexec, Except.map]⟩
    · cases he
    · simp [generateFileContent, callLLMWithFallback, hexec, List.countP_cons, hne]
  | error e₀ =>
    refine ⟨?_, fun resp hresp => ?_, fun e he => ?_, ?_⟩
    · simp [generateFileContent, callLLMWithFallback, hexec]
    · cases hresp
    · refine ⟨by simp [generateFileContent, callLLMWithFallback, hexec], rfl, rfl, rfl,
        fun e₂ he₂ => ?_, fun resp hresp => ?_⟩
      · simp [generateFileContent, callLLMWithFallback, hexec, he₂, Except.map]
      · simp [generateFileContent, callLLMWithFallback, hexec, hresp, Except.map]
    · simp [generateFileContent, callLLMWithFallback, hexec, List.countP_cons, hne]

/-- Witness for `llm_fallback_policy`: with a provider that always times
out, both calls appear and the timeout propagates. -/
theorem llm_fallback_policy_witness :
    ((generateFileContent "/index.html" none
      ⟨"proj", "owner", ⟨[], [], [], [], none, none⟩, ⟨"App", "demo"⟩, [], 1⟩
      "gemini" (fun _ => .error (.timedOut 120000))).2.countP
        (fun c => c.provider == fallbackProvider "gemini") ≤ 1) ∧
    ((generateFileContent "/index.html" none
      ⟨"proj", "owner", ⟨[], [], [], [], none, none⟩, ⟨"App", "demo"⟩, [], 1⟩
      "gemini" (fun _ => .error (.timedOut 120000))).1 = .error (.timedOut 120000)) := by
  have h := llm_fallback_policy "/index.html" none
    ⟨"proj", "owner", ⟨[], [], [], [], none, none⟩, ⟨"App", "demo"⟩, [], 1⟩
    "gemini" (fun _ => .error (.timedOut 120000)) _ _ rfl rfl
  exact ⟨h.2.2.2, ((h.2.2.1 (.timedOut 120000) rfl).2.2.2.2.1 (.timedOut 120000) rfl)⟩

/--
C9, confirmed. The target path resolves to `file_to_generate` when that
field is present (truthy), regardless of `file_to_update`, and to
`file_to_update` otherwise; a task with neither path is skipped with a
warning and performs no generation call and no commit; on success the single
commit's operation is "update" exactly when `file_to_update` was set (hence
"create"/"update" matches the path field set whenever exactly one is given),
and the commit message embeds the task name, file path and attempt number.
-/
theorem executeTask_spec (task : PlanTask) (ctx : OrchestratorContext)
    (cfgProvider : String) (execCall : LLMCall → Except LLMError GenerateResponse) :
    (∀ fp, task.file_to_generate = some fp → fp ≠ "" →
      jsOrS task.file_to_generate task.file_to_update = some fp)
    ∧ (truthyS task.file_to_generate = false →
      jsOrS task.file_to_generate task.file_to_update = task.file_to_update)
    ∧ (truthyS (jsOrS task.file_to_generate task.file_to_update) = false →
      executeTask task ctx cfgProvider execCall = (.ok ctx, [.warnNoFile task.name]))
    ∧ (∀ fp content, jsOrS task.file_to_generate task.file_to_update = some fp → fp ≠ "" →
      (generateFileContent fp
        (ctx.plan.code_generation_instructions.find? (fun inst => inst.file == fp))
        ctx cfgProvider execCall).1 = .ok content →
      (executeTask task ctx cfgProvider execCall).2 =
        (generateFileContent fp
          (ctx.plan.code_generation_instructions.find? (fun inst => inst.file == fp))
          ctx cfgProvider execCall).2.map (fun c => OrchEvent.llmCall c) ++
          [.commitFile fp content
            (if truthyS task.file_to_update then "update" else "create")
            (task.name ++ ": " ++ fp ++ " (attempt " ++ toString ctx.attempt ++ ")")]) := by
  refine ⟨fun fp hg hne => ?_, fun hng => ?_, fun hfalsy => ?_, fun fp content hfp hne hok => ?_⟩
  · unfold jsOrS
    rw [hg]
    have : truthyS (some fp) = true := by
      unfold truthyS
      simpa using hne
    rw [this]
    simp
  · unfold jsOrS
    rw [hng]
    simp
  · unfold executeTask
    cases hj : jsOrS task.file_to_generate task.file_to_update with
    | none => rfl
    | some fp =>
      rw [hj] at hfalsy
      have hfp : fp = "" := by simpa [truthyS] using hfalsy
      subst hfp
      rfl
  · have hbeq : (fp == "") = false := by simpa using hne
    unfold executeTask
    simp only [hfp, hbeq, Bool.false_eq_true, if_false, hok]

/-- Witness for `dependency_contents_in_request`: a one-dependency manifest
with the dependency already generated puts its content into the request. -/
theorem dependency_contents_in_request_witness :
    ("/a.js", "console.log(1)") ∈ getDependencyContents "/b.js"
      ⟨"proj", "owner", ⟨[], [⟨"/b.js", "logic", ["/a.js"], none⟩], [], [], none, none⟩,
        ⟨"App", "demo"⟩, [("/a.js", "console.log(1)")], 1⟩ ∧
    StrContains (buildPrompt "/b.js" none
      ⟨"proj", "owner", ⟨[], [⟨"/b.js", "logic", ["/a.js"], none⟩], [], [], none, none⟩,
        ⟨"App", "demo"⟩, [("/a.js", "console.log(1)")], 1⟩) "console.log(1)" :=
  (dependency_contents_in_request
    ⟨"proj", "owner", ⟨[], [⟨"/b.js", "logic", ["/a.js"], none⟩], [], [], none, none⟩,
      ⟨"App", "demo"⟩, [("/a.js", "console.log(1)")], 1⟩
    "/b.js" none ⟨"/b.js", "logic", ["/a.js"], none⟩ rfl).1
    "/a.js" "console.log(1)" (by decide) rfl (by decide)

/-- Witness for `executeTask_spec`: a generate-path task resolves to its
own path, and a task whose only path field is the falsy empty string is
skipped with the warning and produces no generation call and no commit. -/
theorem executeTask_spec_witness :
    jsOrS (some "/index.html") none = some "/index.html" ∧
    executeTask ⟨"Empty task", 0, none, some "", ""⟩
        ⟨"proj", "owner", ⟨[], [], [], [], none, none⟩, ⟨"App", "demo"⟩, [], 1⟩
        "gemini" (fun _ => .ok ⟨"<html>"⟩) =
      (.ok ⟨"proj", "owner", ⟨[], [], [], [], none, none⟩, ⟨"App", "demo"⟩, [], 1⟩,
        [.warnNoFile "Empty task"]) :=
  ⟨(executeTask_spec ⟨"Generate index", 0, some "/index.html", none, ""⟩
      ⟨"proj", "owner", ⟨[], [], [], [], none, none⟩, ⟨"App", "demo"⟩, [], 1⟩
      "gemini" (fun _ => .ok ⟨"<html>"⟩)).1 "/index.html" rfl (by decide),
   (executeTask_spec ⟨"Empty task", 0, none, some "", ""⟩
      ⟨"proj", "owner", ⟨[], [], [], [], none, none⟩, ⟨"App", "demo"⟩, [], 1⟩
      "gemini" (fun _ => .ok ⟨"<html>"⟩)).2.2.1 rfl⟩

theorem loopFrom_approved (review : Nat → Plan → ReviewDecision)
    (replanFn : Plan → String → Plan) (pagesUrl : String) (plan : Plan) (attempt : Nat)
    (hle : attempt ≤ MAX_ATTEMPTS) (happr : (review attempt plan).approved = true) :
    loopFrom review replanFn pagesUrl plan attempt =
      { outcome := .ok ⟨if isStaticSite plan then pagesUrl else "",
          verifyDeployment (review attempt plan), attempt⟩
        attemptsRun := 1
        replanCalls := 0
        deployCalls := if isStaticSite plan then 1 else 0
        finalPlan := plan } := by
  unfold loopFrom
  rw [if_pos hle]
  have hsucc : (verifyDeployment (review attempt plan)).success = true := happr
  simp only [hsucc, if_true]

theorem loopFrom_rejected_retry (review : Nat → Plan → ReviewDecision)
    (replanFn : Plan → String → Plan) (pagesUrl : String) (plan : Plan) (attempt : Nat)
    (hlt : attempt < MAX_ATTEMPTS) (hrej : (review attempt plan).approved = false) :
    loopFrom review replanFn pagesUrl plan attempt =
      { outcome := (loopFrom review replanFn pagesUrl
          (replanFn plan (feedbackOf (verifyDeployment (review attempt plan))))
          (attempt + 1)).outcome
        attemptsRun := (loopFrom review replanFn pagesUrl
          (replanFn plan (feedbackOf (verifyDeployment (review attempt plan))))
          (attempt + 1)).attemptsRun + 1
        replanCalls := (loopFrom review replanFn pagesUrl
          (replanFn plan (feedbackOf (verifyDeployment (review attempt plan))))
          (attempt + 1)).replanCalls + 1
        deployCalls := (loopFrom review replanFn pagesUrl
          (replanFn plan (feedbackOf (verifyDeployment (review attempt plan))))
          (attempt + 1)).deployCalls
        finalPlan := (loopFrom review replanFn pagesUrl
          (replanFn plan (feedbackOf (verifyDeployment (review attempt plan))))
          (attempt + 1)).finalPlan } := by
  conv_lhs => unfold loopFrom
  rw [if_pos (Nat.le_of_lt hlt)]
  have hsucc : (verifyDeployment (review attempt plan)).success = false := hrej
  simp only [hsucc, Bool.false_eq_true, if_false, dif_pos hlt]

theorem loopFrom_rejected_final (review : Nat → Plan → ReviewDecision)
    (replanFn : Plan → String → Plan) (pagesUrl : String) (plan : Plan) (attempt : Nat)
    (heq : attempt = MAX_ATTEMPTS) (hrej : (review attempt plan).approved = false) :
    loopFrom review replanFn pagesUrl plan attempt =
      { outcome := .error ("Deployment failed after " ++ toString MAX_ATTEMPTS ++
          " attempts: " ++
          joinSep "; " (verifyDeployment (review attempt plan)).errors)
        attemptsRun := 1
        replanCalls := 0
        deployCalls := 0
        finalPlan := plan } := by
  subst heq
  unfold loopFrom
  rw [if_pos (Nat.le_refl _)]
  have hsucc : (verifyDeployment (review MAX_ATTEMPTS plan)).success = false := hrej
  simp only [hsucc, Bool.false_eq_true, if_false, dif_neg (Nat.lt_irrefl MAX_ATTEMPTS)]

/--
C1, confirmed. When the reviewer rejects on every attempt, the orchestration
loop runs exactly `MAX_ATTEMPTS = 3` attempts and never a fourth, calls the
replanner exactly twice (after the first and the second rejection), and
terminates by raising the fatal error that joins all error strings of the
final (third) verification.
-/
theorem orchestration_rejects_thrice (review : Nat → Plan → ReviewDecision)
    (replanFn : Plan → String → Plan) (pagesUrl : String) (initialPlan : Plan)
    (hrej : ∀ attempt plan, (review attempt plan).approved = false) :
    (executeOrchestrator review replanFn pagesUrl initialPlan).attemptsRun = 3
    ∧ (executeOrchestrator review replanFn pagesUrl initialPlan).replanCalls = 2
    ∧ (executeOrchestrator review replanFn pagesUrl initialPlan).outcome =
        .error ("Deployment failed after " ++ toString MAX_ATTEMPTS ++ " attempts: " ++
          joinSep "; " (verifyDeployment (review MAX_ATTEMPTS
            (executeOrchestrator review replanFn pagesUrl initialPlan).finalPlan)).errors) := by
  unfold executeOrchestrator
  rw [loopFrom_rejected_retry review replanFn pagesUrl initialPlan 1 (by decide)
    (hrej 1 initialPlan)]
  rw [loopFrom_rejected_retry review replanFn pagesUrl _ 2 (by decide) (hrej 2 _)]
  rw [loopFrom_rejected_final review replanFn pagesUrl _ 3 rfl (hrej 3 _)]
  exact ⟨rfl, rfl, rfl⟩

/-- Witness for `orchestration_rejects_thrice`: an always-rejecting reviewer
stub yields three attempts, two replans and the enumerated fatal error. -/
theorem orchestration_rejects_thrice_witness :
    (executeOrchestrator (fun _ _ => ⟨false, .strV "missing files"⟩) (fun p _ => p)
      "https://x" ⟨[], [], [], [], none, none⟩).attemptsRun = 3
    ∧ (executeOrchestrator (fun _ _ => ⟨false, .strV "missing files"⟩) (fun p _ => p)
      "https://x" ⟨[], [], [], [], none, none⟩).replanCalls = 2
    ∧ (executeOrchestrator (fun _ _ => ⟨false, .strV "missing files"⟩) (fun p _ => p)
      "https://x" ⟨[], [], [], [], none, none⟩).outcome =
        .error "Deployment failed after 3 attempts: LLM Review Failed: missing files" := by
  have h := orchestration_rejects_thrice (fun _ _ => ⟨false, .strV "missing files"⟩)
    (fun p _ => p) "https://x" ⟨[], [], [], [], none, none⟩ (fun _ _ => rfl)
  exact ⟨h.1, h.2.1, by rw [h.2.2]; exact congrArg Except.error (by decide)⟩

/--
C2, confirmed. When the reviewer rejects attempt 1 and approves attempt 2,
the loop calls the replanner exactly once, runs exactly two attempts, and
returns a success whose `attempts` field is 2.
-/
theorem orchestration_approves_second (review : Nat → Plan → ReviewDecision)
    (replanFn : Plan → String → Plan) (pagesUrl : String) (initialPlan : Plan)
    (hrej1 : ∀ plan, (review 1 plan).approved = false)
    (happr2 : ∀ plan, (review 2 plan).approved = true) :
    (executeOrchestrator review replanFn pagesUrl initialPlan).replanCalls = 1
    ∧ (executeOrchestrator review replanFn pagesUrl initialPlan).attemptsRun = 2
    ∧ ∃ s, (executeOrchestrator review replanFn pagesUrl initialPlan).outcome = .ok s
        ∧ s.attempts = 2 := by
  unfold executeOrchestrator
  rw [loopFrom_rejected_retry review replanFn pagesUrl initialPlan 1 (by decide)
    (hrej1 initialPlan)]
  rw [loopFrom_approved review replanFn pagesUrl _ 2 (by decide) (happr2 _)]
  exact ⟨rfl, rfl, ⟨_, rfl, rfl⟩⟩

/-- Witness for `orchestration_approves_second`: reject-then-approve gives
one replan and success at attempt 2. -/
theorem orchestration_approves_second_witness :
    (executeOrchestrator
      (fun attempt _ => if attempt == 1 then ⟨false, .strV "no"⟩ else ⟨true, .strV "ok"⟩)
      (fun p _ => p) "https://x" ⟨[], [], [], [], none, none⟩).replanCalls = 1
    ∧ (executeOrchestrator
      (fun attempt _ => if attempt == 1 then ⟨false, .strV "no"⟩ else ⟨true, .strV "ok"⟩)
      (fun p _ => p) "https://x" ⟨[], [], [], [], none, none⟩).attemptsRun = 2
    ∧ ∃ s, (executeOrchestrator
      (fun attempt _ => if attempt == 1 then ⟨false, .strV "no"⟩ else ⟨true, .strV "ok"⟩)
      (fun p _ => p) "https://x" ⟨[], [], [], [], none, none⟩).outcome = .ok s
        ∧ s.attempts = 2 :=
  orchestration_approves_second
    (fun attempt _ => if attempt == 1 then ⟨false, .strV "no"⟩ else ⟨true, .strV "ok"⟩)
    (fun p _ => p) "https://x" ⟨[], [], [], [], none, none⟩
    (fun _ => rfl) (fun _ => rfl)

theorem loopFrom_deploy_aux (review : Nat → Plan → ReviewDecision)
    (replanFn : Plan → String → Plan) (pagesUrl : String) :
    ∀ n attempt plan, MAX_ATTEMPTS + 1 - attempt ≤ n →
      ((loopFrom review replanFn pagesUrl plan attempt).deployCalls =
        if outcomeOk (loopFrom review replanFn pagesUrl plan attempt).outcome &&
           isStaticSite (loopFrom review replanFn pagesUrl plan attempt).finalPlan
        then 1 else 0)
      ∧ (∀ s, (loopFrom review replanFn pagesUrl plan attempt).outcome = .ok s →
          isStaticSite (loopFrom review replanFn pagesUrl plan attempt).finalPlan = false →
          s.deploymentUrl = "") := by
  intro n
  induction n with
  | zero =>
    intro attempt plan hn
    have hgt : ¬ attempt ≤ MAX_ATTEMPTS := by omega
    unfold loopFrom
    rw [if_neg hgt]
    exact ⟨rfl, fun s hs => by cases hs⟩
  | succ n ih =>
    intro attempt plan hn
    by_cases hle : attempt ≤ MAX_ATTEMPTS
    · by_cases happ : (review attempt plan).approved = true
      · rw [loopFrom_approved review replanFn pagesUrl plan attempt hle happ]
        constructor
        · by_cases hst : isStaticSite plan
          · simp [outcomeOk, hst]
          · simp [outcomeOk, hst]
        · intro s hs hstatic
          cases hs
          simp only at hstatic
          simp [hstatic]
      · have hrej : (review attempt plan).approved = false := by
          simpa using happ
        by_cases hlt : attempt < MAX_ATTEMPTS
        · rw [loopFrom_rejected_retry review replanFn pagesUrl plan attempt hlt hrej]
          exact ih (attempt + 1)
            (replanFn plan (feedbackOf (verifyDeployment (review attempt plan))))
            (by omega)
        · have heq : attempt = MAX_ATTEMPTS := by omega
          rw [loopFrom_rejected_final review replanFn pagesUrl plan attempt heq hrej]
          exact ⟨rfl, fun s hs => by cases hs⟩
    · unfold loopFrom
      rw [if_neg hle]
      exact ⟨rfl, fun s hs => by cases hs⟩

/--
C8, confirmed. The deployment capability is invoked exactly when the run
terminates approved and the then-current plan carries the static-hosting
marker (`github-pages` hosting platform or `static-spa` execution strategy);
a run that is approved on a plan without the marker never calls the
capability and returns an empty `deploymentUrl`.
-/
theorem deployment_iff_static (review : Nat → Plan → ReviewDecision)
    (replanFn : Plan → String → Plan) (pagesUrl : String) (initialPlan : Plan) :
    ((executeOrchestrator review replanFn pagesUrl initialPlan).deployCalls =
      if outcomeOk (executeOrchestrator review replanFn pagesUrl initialPlan).outcome &&
         isStaticSite (executeOrchestrator review replanFn pagesUrl initialPlan).finalPlan
      then 1 else 0)
    ∧ (∀ s, (executeOrchestrator review replanFn pagesUrl initialPlan).outcome = .ok s →
        isStaticSite (executeOrchestrator review replanFn pagesUrl initialPlan).finalPlan
          = false →
        s.deploymentUrl = "") :=
  loopFrom_deploy_aux review replanFn pagesUrl (MAX_ATTEMPTS + 1) 1 initialPlan (by omega)

/-- Witness for `deployment_iff_static`: an approved run on a plan without
any static-hosting marker performs zero deployment calls and returns the
empty deployment URL. -/
theorem deployment_iff_static_witness :
    (executeOrchestrator (fun _ _ => ⟨true, .strV "ok"⟩) (fun p _ => p) "https://x"
      ⟨[], [], [], [], none, none⟩).deployCalls = 0
    ∧ (⟨"", verifyDeployment ⟨true, .strV "ok"⟩, 1⟩ : OrchSuccess).deploymentUrl = "" := by
  have h := deployment_iff_static (fun _ _ => ⟨true, .strV "ok"⟩) (fun p _ => p)
    "https://x" ⟨[], [], [], [], none, none⟩
  have heval : executeOrchestrator (fun _ _ => ⟨true, .strV "ok"⟩) (fun p _ => p)
      "https://x" ⟨[], [], [], [], none, none⟩ =
      { outcome := .ok ⟨"", verifyDeployment ⟨true, .strV "ok"⟩, 1⟩
        attemptsRun := 1
        replanCalls := 0
        deployCalls := 0
        finalPlan := ⟨[], [], [], [], none, none⟩ } := by
    have := loopFrom_approved (fun _ _ => ⟨true, .strV "ok"⟩) (fun p _ => p)
      "https://x" ⟨[], [], [], [], none, none⟩ 1 (by decide) rfl
    simpa [executeOrchestrator, isStaticSite] using this
  constructor
  · rw [h.1, heval]
    rfl
  · exact h.2 ⟨"", verifyDeployment ⟨true, .strV "ok"⟩, 1⟩ (by rw [heval])
      (by rw [heval]; decide)
